import Mathlib

/-!
Verification of the menu-vision job pipeline: the structuring parser
(`parse_llm_response`, `_recover_truncated_json` from `backend/llm.py` and
`menu_vision/llm.py`), the per-dish image-generation retry loop
(`backend/image_gen.py`), the extraction fallback chain and the orchestrator
publication protocol (`backend/handlers/process.py`,
`menu_vision/pipeline.py`), modelled as executable Lean functions.
-/

/-! ## JSON values and Python value semantics -/

/-- JSON values as decoded by Python's `json.loads`. Numeric literals are
restricted to integers: the menu payloads the repository exchanges carry
prices and names as strings, so non-integer number literals are outside the
modelled input space. Object fields keep their textual order; duplicate keys
resolve to the last occurrence, as in a Python dict. -/
inductive Json where
  | null
  | bool (b : Bool)
  | num (n : Int)
  | str (s : String)
  | arr (items : List Json)
  | obj (fields : List (String × Json))

/-- Left brace character (written numerically to keep braces out of code). -/
def lbraceChar : Char := Char.ofNat 123

/-- Right brace character. -/
def rbraceChar : Char := Char.ofNat 125

/-- Backtick character. -/
def tickChar : Char := Char.ofNat 96

/-- Python truthiness (`bool(value)`) of a decoded JSON value, used by the
guard `if not original_name or not isinstance(original_name, str)`. -/
def Json.truthy : Json → Bool
  | .null => false
  | .bool b => b
  | .num n => n != 0
  | .str s => s != ""
  | .arr items => !items.isEmpty
  | .obj fields => !fields.isEmpty

/-- Whether a decoded value is a Python `str` (`isinstance(value, str)`). -/
def Json.isStr : Json → Bool
  | .str _ => true
  | _ => false

/-- Whether a decoded value is Python `None`. -/
def Json.isNull : Json → Bool
  | .null => true
  | _ => false

/-- The underlying string of a `Json.str` (only consulted after `isStr`). -/
def Json.asString : Json → String
  | .str s => s
  | _ => ""

/-- Python `type(value).__name__` for a decoded JSON value, as interpolated
into the "Expected JSON array from LLM" error message. -/
def Json.typeName : Json → String
  | .null => "NoneType"
  | .bool _ => "bool"
  | .num _ => "int"
  | .str _ => "str"
  | .arr _ => "list"
  | .obj _ => "dict"

/-- Characters Python's `str.strip()` removes (the ASCII whitespace set; the
repository's strings do not use the rarer Unicode whitespace). -/
def isPyWhitespace (c : Char) : Bool :=
  [32, 9, 10, 13, 11, 12].contains c.toNat

/-- Python `str.strip()`. -/
def pyStrip (s : String) : String :=
  String.mk (((s.data.dropWhile isPyWhitespace).reverse.dropWhile isPyWhitespace).reverse)

/-- Python `str.rstrip()` (trailing whitespace). -/
def pyRstrip (s : String) : String :=
  String.mk ((s.data.reverse.dropWhile isPyWhitespace).reverse)

/-- Python `str.rstrip(',')` (trailing commas). -/
def pyRstripComma (s : String) : String :=
  String.mk ((s.data.reverse.dropWhile (fun c => c == ',')).reverse)

mutual

/-- Python `repr()` of a decoded JSON value, used by `str()` on containers.
Strings render between single quotes; the repository's data never exercises
`repr` on strings containing quote or escape characters, which Python would
escape. -/
def pyRepr : Json → String
  | .null => "None"
  | .bool true => "True"
  | .bool false => "False"
  | .num n => toString n
  | .str s => "\x27" ++ s ++ "\x27"
  | .arr items => "[" ++ String.intercalate ", " (pyReprList items) ++ "]"
  | .obj fields => "\x7b" ++ String.intercalate ", " (pyReprFields fields) ++ "\x7d"

/-- Python `repr` of each element of a decoded list. -/
def pyReprList : List Json → List String
  | [] => []
  | v :: rest => pyRepr v :: pyReprList rest

/-- Python `repr` of each `key: value` pair of a decoded dict. -/
def pyReprFields : List (String × Json) → List String
  | [] => []
  | (k, v) :: rest => ("\x27" ++ k ++ "\x27: " ++ pyRepr v) :: pyReprFields rest

end

/-- Python `str(value)` of a decoded JSON value, as applied to ingredient
entries (`str(i) for i in raw_ingredients`). -/
def pyStr : Json → String
  | .str s => s
  | v => pyRepr v

/-- Python `item.get(key)` on a decoded JSON object: the last binding for the
key wins (dict insertion semantics of `json.loads`); a missing key gives
Python `None`, which coincides with decoded JSON `null` downstream. -/
def dictGet (fields : List (String × Json)) (key : String) : Json :=
  match fields.reverse.find? (fun kv => kv.1 == key) with
  | some kv => kv.2
  | none => Json.null

/-! ## Shared data model -/

/-- Job status enumeration from `menu_vision/models.py`; the backend module
uses the identical four-state enum. -/
inductive JobStatus where
  | PROCESSING
  | COMPLETED
  | FAILED
  | PARTIAL
deriving DecidableEq, Repr

namespace Backend

/-- Modelled from the spec: `backend/models.py` is not in the source tree
(only its importers are). The spec's DishRecord for the fallback-capable
variant: `original_name` required; `translated_name`, `description`,
`price`, `image_url`, `cuisine` optional ("string or absent");
`ingredients` an ordered list of strings. The in-tree
`menu_vision/models.py` dataclass shows the constructor pattern: plain
fields with absent-by-default optionals and no validation. -/
structure DishRecord where
  original_name : String
  translated_name : Option String := none
  description : Option String := none
  ingredients : List String := []
  price : Option String := none
  image_url : Option String := none
  cuisine : Option String := none
deriving DecidableEq, Repr

/-- Modelled from the spec: the backend `MenuResult` (job result) with
`job_id`, `status`, optional `source_language`, ordered `dishes`, and
optional `error_message`, mirroring the in-tree `menu_vision/models.py`
dataclass field for field. -/
structure MenuResult where
  job_id : String
  status : JobStatus
  source_language : Option String := none
  dishes : List DishRecord := []
  error_message : Option String := none
deriving DecidableEq, Repr

end Backend

namespace MenuVision

/-- DishRecord from `menu_vision/models.py`: same fields as the backend
record but with no `cuisine` field. -/
structure DishRecord where
  original_name : String
  translated_name : Option String := none
  description : Option String := none
  ingredients : List String := []
  price : Option String := none
  image_url : Option String := none
deriving DecidableEq, Repr

/-- MenuResult from `menu_vision/models.py`. -/
structure MenuResult where
  job_id : String
  status : JobStatus
  source_language : Option String := none
  dishes : List DishRecord := []
  error_message : Option String := none
deriving DecidableEq, Repr

end MenuVision

/-- Forget the `cuisine` field (which the backend structuring parser never
populates), mapping a backend dish record onto the menu_vision record. -/
def mvOfDish (d : Backend.DishRecord) : MenuVision.DishRecord :=
  { original_name := d.original_name
    translated_name := d.translated_name
    description := d.description
    ingredients := d.ingredients
    price := d.price
    image_url := d.image_url }

/-! ## A model of `json.loads`

Strict JSON parsing as Python's `json` module performs it: one value,
surrounded only by whitespace; strings with the standard escapes; `\uXXXX`
becomes the character of that code point (surrogate pairs are not combined,
which the repository's payloads do not use); integer numbers (a literal
continuing with `.`, `e` or `E` would be a float, outside the modelled input
space, and is rejected); raw control characters inside strings are rejected
(strict mode). -/

/-- Whitespace skipped between JSON tokens (`json.decoder`: space, tab,
newline, carriage return). -/
def isJsonWs (c : Char) : Bool :=
  [32, 9, 10, 13].contains c.toNat

/-- Skip inter-token whitespace. -/
def skipWs (cs : List Char) : List Char := cs.dropWhile isJsonWs

/-- Value of a hexadecimal digit. -/
def hexVal (c : Char) : Option Nat :=
  let n := c.toNat
  if 48 ≤ n ∧ n ≤ 57 then some (n - 48)
  else if 97 ≤ n ∧ n ≤ 102 then some (n - 87)
  else if 65 ≤ n ∧ n ≤ 70 then some (n - 55)
  else none

/-- Single-character JSON escapes. -/
def escChar : Char → Option Char
  | '"' => some '"'
  | '\\' => some '\\'
  | '/' => some '/'
  | 'b' => some (Char.ofNat 8)
  | 'f' => some (Char.ofNat 12)
  | 'n' => some (Char.ofNat 10)
  | 'r' => some (Char.ofNat 13)
  | 't' => some (Char.ofNat 9)
  | _ => none

/-- Parse the body of a JSON string literal, after the opening quote; returns
the decoded characters and the input after the closing quote. -/
def parseStringBody : List Char → Option (List Char × List Char)
  | [] => none
  | c :: rest =>
    if c == '"' then some ([], rest)
    else if c == '\\' then
      match rest with
      | [] => none
      | e :: rest2 =>
        if e == 'u' then
          match rest2 with
          | a :: b :: c2 :: d :: rest3 =>
            match hexVal a, hexVal b, hexVal c2, hexVal d with
            | some ha, some hb, some hc, some hd =>
              match parseStringBody rest3 with
              | some (cs, r) => some (Char.ofNat (((ha * 16 + hb) * 16 + hc) * 16 + hd) :: cs, r)
              | none => none
            | _, _, _, _ => none
          | _ => none
        else
          match escChar e with
          | some ce =>
            match parseStringBody rest2 with
            | some (cs, r) => some (ce :: cs, r)
            | none => none
          | none => none
    else if c.toNat < 32 then none
    else
      match parseStringBody rest with
      | some (cs, r) => some (c :: cs, r)
      | none => none

/-- Accumulate a run of decimal digits. -/
def digitsAux (acc : Nat) : List Char → Nat × List Char
  | [] => (acc, [])
  | c :: rest =>
    if c.isDigit then digitsAux (acc * 10 + (c.toNat - 48)) rest
    else (acc, c :: rest)

/-- Parse a JSON integer literal: optional minus sign, digits with no
superfluous leading zero; a continuation that would make the literal a float
is rejected (see the module comment). -/
def parseIntLit (cs : List Char) : Option (Int × List Char) :=
  let (neg, cs1) :=
    match cs with
    | '-' :: rest => (true, rest)
    | _ => (false, cs)
  match cs1 with
  | [] => none
  | c :: _ =>
    if !c.isDigit then none
    else
      let (n, rest) := digitsAux 0 cs1
      if c == '0' && (match cs1 with | _ :: d :: _ => d.isDigit | _ => false) then none
      else
        match rest with
        | e :: _ => if e == '.' || e == 'e' || e == 'E' then none
                    else some (if neg then -(n : Int) else (n : Int), rest)
        | [] => some (if neg then -(n : Int) else (n : Int), rest)

mutual

/-- Parse one JSON value (fuel-indexed recursive descent). -/
def parseValue : Nat → List Char → Option (Json × List Char)
  | 0, _ => none
  | fuel + 1, cs =>
    match skipWs cs with
    | [] => none
    | c :: rest =>
      if c == '"' then
        match parseStringBody rest with
        | some (content, r) => some (.str (String.mk content), r)
        | none => none
      else if c == '[' then
        match skipWs rest with
        | ']' :: r => some (.arr [], r)
        | _ =>
          match parseArrayItems fuel rest with
          | some (items, r) => some (.arr items, r)
          | none => none
      else if c == lbraceChar then
        match skipWs rest with
        | c2 :: r =>
          if c2 == rbraceChar then some (.obj [], r)
          else
            match parseObjectItems fuel (c2 :: r) with
            | some (fields, r2) => some (.obj fields, r2)
            | none => none
        | [] => none
      else if c == 't' then
        match rest with
        | 'r' :: 'u' :: 'e' :: r => some (.bool true, r)
        | _ => none
      else if c == 'f' then
        match rest with
        | 'a' :: 'l' :: 's' :: 'e' :: r => some (.bool false, r)
        | _ => none
      else if c == 'n' then
        match rest with
        | 'u' :: 'l' :: 'l' :: r => some (.null, r)
        | _ => none
      else
        match parseIntLit (c :: rest) with
        | some (n, r) => some (.num n, r)
        | none => none

/-- Parse the items of a non-empty JSON array, up to and including `]`. -/
def parseArrayItems : Nat → List Char → Option (List Json × List Char)
  | 0, _ => none
  | fuel + 1, cs =>
    match parseValue fuel cs with
    | none => none
    | some (v, rest) =>
      match skipWs rest with
      | ',' :: rest2 =>
        match parseArrayItems fuel rest2 with
        | some (items, r) => some (v :: items, r)
        | none => none
      | ']' :: rest2 => some ([v], rest2)
      | _ => none

/-- Parse the members of a non-empty JSON object, up to and including the
closing brace. -/
def parseObjectItems : Nat → List Char → Option (List (String × Json) × List Char)
  | 0, _ => none
  | fuel + 1, cs =>
    match skipWs cs with
    | '"' :: rest =>
      match parseStringBody rest with
      | none => none
      | some (key, rest2) =>
        match skipWs rest2 with
        | ':' :: rest3 =>
          match parseValue fuel rest3 with
          | none => none
          | some (v, rest4) =>
            match skipWs rest4 with
            | ',' :: rest5 =>
              match parseObjectItems fuel rest5 with
              | some (fields, r) => some ((String.mk key, v) :: fields, r)
              | none => none
            | c :: rest5 =>
              if c == rbraceChar then some ([(String.mk key, v)], rest5)
              else none
            | [] => none
        | _ => none
    | _ => none

end

/-- Python `json.loads`: parse one JSON value and require only whitespace
after it ("Extra data" otherwise). The fuel bound exceeds any possible
recursion depth on the given text. -/
def jsonParse (s : String) : Option Json :=
  match parseValue (2 * s.length + 2) s.data with
  | some (v, rest) => if (skipWs rest).isEmpty then some v else none
  | none => none

example : jsonParse "[]" = some (Json.arr []) := rfl
example : jsonParse " [1, -2, 30] " = some (Json.arr [.num 1, .num (-2), .num 30]) := rfl
example : jsonParse "[true, false, null]" = some (Json.arr [.bool true, .bool false, .null]) := rfl
example : jsonParse "\x7b\"a\": \"b\"\x7d" = some (Json.obj [("a", .str "b")]) := rfl
example : jsonParse "\x7b\"a\": 1, \"c\": []\x7d" = some (Json.obj [("a", .num 1), ("c", .arr [])]) := rfl
example : jsonParse "[\"\\u0041\\n\"]" = some (Json.arr [.str "A\n"]) := rfl
example : jsonParse "01" = none := rfl
example : jsonParse "[1" = none := rfl
example : jsonParse "[] []" = none := rfl
example : jsonParse "1.5" = none := rfl

/-! ## The structuring parser (`backend/llm.py`, `menu_vision/llm.py`) -/

/-- Helper `_nullable_str` from `llm.py` (textually identical in the backend and
menu_vision variants): Python `None` gives `None`; a non-string gives
`str(value)`; a string is stripped, blank becoming `None`. -/
def nullable_str : Json → Option String
  | .null => none
  | .str s =>
    let stripped := pyStrip s
    if stripped == "" then none else some stripped
  | v => some (pyStr v)

/-- The ingredients normalization inside the `parse_llm_response` item loop
(`backend/llm.py` lines 77-81): a non-list becomes `[]`; `None` entries are
dropped; remaining entries pass through `str()`. -/
def ingredientsOf : Json → List String
  | .arr xs => (xs.filter (fun x => !x.isNull)).map pyStr
  | _ => []

namespace Backend

/-- The per-item validation loop of `parse_llm_response` (`backend/llm.py`
lines 68-92): non-dict entries are skipped; an entry whose
`original_name` is falsy or not a string is skipped; otherwise a DishRecord
is built with the stripped name, `_nullable_str`-normalized optional fields
and normalized ingredients. The backend loop does not populate `cuisine`. -/
def dishesOfItems : List Json → List DishRecord
  | [] => []
  | item :: rest =>
    match item with
    | .obj fields =>
      let name := dictGet fields "original_name"
      if !name.truthy || !name.isStr then dishesOfItems rest
      else
        { original_name := pyStrip name.asString
          translated_name := nullable_str (dictGet fields "translated_name")
          description := nullable_str (dictGet fields "description")
          ingredients := ingredientsOf (dictGet fields "ingredients")
          price := nullable_str (dictGet fields "price") } :: dishesOfItems rest
    | _ => dishesOfItems rest

end Backend

namespace MenuVision

/-- The per-item validation loop of `parse_llm_response`
(`menu_vision/llm.py` lines 62-86), textually identical to the backend loop
but producing the cuisine-less record type. -/
def dishesOfItems : List Json → List DishRecord
  | [] => []
  | item :: rest =>
    match item with
    | .obj fields =>
      let name := dictGet fields "original_name"
      if !name.truthy || !name.isStr then dishesOfItems rest
      else
        { original_name := pyStrip name.asString
          translated_name := nullable_str (dictGet fields "translated_name")
          description := nullable_str (dictGet fields "description")
          ingredients := ingredientsOf (dictGet fields "ingredients")
          price := nullable_str (dictGet fields "price") } :: dishesOfItems rest
    | _ => dishesOfItems rest

end MenuVision

/-- Find the first occurrence of three consecutive backticks; returns the
text before it and the text after it. -/
def splitOnTriple : List Char → Option (List Char × List Char)
  | a :: b :: c :: rest =>
    if a == tickChar && b == tickChar && c == tickChar then some ([], rest)
    else
      match splitOnTriple (b :: c :: rest) with
      | some (pre, post) => some (a :: pre, post)
      | none => none
  | _ => none

/-- Consume a literal `json` language tag directly after the opening fence,
when present. -/
def dropJsonTag : List Char → List Char
  | 'j' :: 's' :: 'o' :: 'n' :: rest => rest
  | cs => cs

/-- The code-fence extraction step of `parse_llm_response`, modelling
Python's `re.search(r"` ```(?:json)?\s*\n?(.*?)\n?\s*``` `", text, re.DOTALL)`
followed by `.group(1).strip()`. Since `\n` is itself `\s`, the pattern is
equivalent to three backticks, an optional `json` tag, then a lazily matched
group ending at the first subsequent run of whitespace followed by three
backticks; as the group is stripped afterwards, the extracted content is the
stripped text between the end of the opening fence (and tag) and the first
closing fence. When the pattern does not match, the text is unchanged. -/
def stripCodeFence (text : String) : String :=
  match splitOnTriple text.data with
  | none => text
  | some (_, afterOpen) =>
    let afterTag := dropJsonTag afterOpen
    match splitOnTriple afterTag with
    | none => text
    | some (content, _) => pyStrip (String.mk content)

/-- The character-scanning loop of `_recover_truncated_json`
(`backend/llm.py` lines 258-280): walk the text tracking string-literal
state, escape state and brace depth; record the index of each `\x7d` that
returns the depth to zero; the final recorded index (initially `-1`) is
`last_complete`. -/
def recoverScan : List Char → Nat → Int → Bool → Bool → Int → Int
  | [], _, _, _, _, lastComplete => lastComplete
  | ch :: rest, i, depth, inString, escapeNext, lastComplete =>
    if escapeNext then
      recoverScan rest (i + 1) depth inString false lastComplete
    else if ch == '\\' && inString then
      recoverScan rest (i + 1) depth inString true lastComplete
    else if ch == '"' && !escapeNext then
      recoverScan rest (i + 1) depth (!inString) escapeNext lastComplete
    else if inString then
      recoverScan rest (i + 1) depth inString escapeNext lastComplete
    else if ch == lbraceChar then
      recoverScan rest (i + 1) (depth + 1) inString escapeNext lastComplete
    else if ch == rbraceChar then
      let depth2 := depth - 1
      if depth2 == 0 then
        recoverScan rest (i + 1) depth2 inString escapeNext (Int.ofNat i)
      else
        recoverScan rest (i + 1) depth2 inString escapeNext lastComplete
    else
      recoverScan rest (i + 1) depth inString escapeNext lastComplete

/-- Recovery function `_recover_truncated_json` (`backend/llm.py` lines 255-299): find the last
top-level object that closes cleanly; if none (`last_complete <= 0`), fail;
otherwise truncate just past it, strip trailing whitespace and commas,
re-close the array, cut everything before the first `[`, and strictly parse
the result, accepting only a JSON array. -/
def recover_truncated_json (text : String) : Option (List Json) :=
  let lastComplete := recoverScan text.data 0 0 false false (-1)
  if lastComplete ≤ 0 then none
  else
    let truncated :=
      pyRstripComma (pyRstrip (String.mk (text.data.take (lastComplete.toNat + 1)))) ++ "]"
    let fromBracket := truncated.data.dropWhile (fun c => c != '[')
    if fromBracket.isEmpty then none
    else
      match jsonParse (String.mk fromBracket) with
      | some (.arr items) => some items
      | _ => none

namespace Backend

/-- Parser `parse_llm_response` (`backend/llm.py` lines 37-92): strip, unfence,
strictly parse; on parse failure attempt truncation recovery, raising the
`LLMProcessingError` message when recovery also fails; reject non-array
payloads; validate items. -/
def parse_llm_response (response_text : String) : Except String (List DishRecord) :=
  let text := pyStrip response_text
  let text := stripCodeFence text
  match jsonParse text with
  | some (.arr items) => .ok (dishesOfItems items)
  | some data => .error ("Expected JSON array from LLM, got " ++ data.typeName)
  | none =>
    match recover_truncated_json text with
    | none => .error "Failed to parse LLM response as JSON and could not recover partial array"
    | some items => .ok (dishesOfItems items)

end Backend

namespace MenuVision

/-- Parser `parse_llm_response` (`menu_vision/llm.py` lines 37-87): identical to the
backend variant except that a strict-parse failure raises immediately (the
error message interpolates the `JSONDecodeError`, abbreviated here) instead
of attempting truncation recovery. -/
def parse_llm_response (response_text : String) : Except String (List DishRecord) :=
  let text := pyStrip response_text
  let text := stripCodeFence text
  match jsonParse text with
  | some (.arr items) => .ok (dishesOfItems items)
  | some data => .error ("Expected JSON array from LLM, got " ++ data.typeName)
  | none => .error "Failed to parse LLM response as JSON"

end MenuVision

example :
    Backend.parse_llm_response "[\x7b\"original_name\": \"Soupe\", \"price\": \"12\"\x7d]" =
      .ok [{ original_name := "Soupe", price := some "12" }] := rfl
example :
    Backend.parse_llm_response "```json\n[\x7b\"original_name\": \"A\"\x7d]\n```" =
      .ok [{ original_name := "A" }] := rfl
example : stripCodeFence "``````" = "" := rfl
example : stripCodeFence "no fences" = "no fences" := rfl

example :
    recover_truncated_json "[\x7b\"original_name\":\"A\"\x7d,\x7b\"original_name\":\"B" =
      some [Json.obj [("original_name", Json.str "A")]] := rfl
example : recover_truncated_json "no braces at all" = none := rfl

/-! ## Image generation retry loop (`backend/image_gen.py`) -/

namespace Backend

/-- Constant `_MAX_RETRIES` from `backend/image_gen.py`. -/
def MAX_RETRIES : Nat := 3

/-- Constant `_BASE_DELAY` from `backend/image_gen.py` (1.0 seconds; the float is an
exact small value, modelled as a rational). -/
def BASE_DELAY : ℚ := 1

/-- Outcome of one `generate_dish_image` call: produced image bytes, an
`ImageGenerationError` whose cause is a `ThrottlingException` `ClientError`,
or any other error (a non-throttling `ImageGenerationError` or an unexpected
exception, which the code handles identically). -/
inductive GenOutcome where
  | success (img : String)
  | throttle
  | failure
deriving DecidableEq, Repr

/-- The body of `_generate_with_retry`'s `for attempt in range(_MAX_RETRIES)`
loop, processing the remaining attempt numbers: success returns the image;
a throttling error sleeps `_BASE_DELAY * 2 ** attempt` (recorded in the
returned delay list) and retries; any other error returns `None`
immediately; an exhausted range returns `None`. -/
def retryFrom (gen : Nat → GenOutcome) : List Nat → Option String × List ℚ
  | [] => (none, [])
  | attempt :: rest =>
    match gen attempt with
    | .success img => (some img, [])
    | .failure => (none, [])
    | .throttle =>
      let (r, delays) := retryFrom gen rest
      (r, BASE_DELAY * 2 ^ attempt :: delays)

/-- Worker `_generate_with_retry` (`backend/image_gen.py` lines 103-139): runs the
attempt loop for a dish index, returning `(index, image-or-None)` together
with the backoff delays issued, and never propagating an exception. -/
def generate_with_retry (gen : Nat → GenOutcome) (index : Nat) :
    (Nat × Option String) × List ℚ :=
  let (r, delays) := retryFrom gen (List.range MAX_RETRIES)
  ((index, r), delays)

end Backend

/-! ## Extraction chain and handler (`backend/handlers/process.py`) -/

namespace Backend

/-- Constant `PLACEHOLDER_IMAGE_URL` from `backend/handlers/process.py` (the same
constant appears in `menu_vision/pipeline.py` and
`menu_vision/handlers/process.py`). -/
def PLACEHOLDER_IMAGE_URL : String := "placeholder://no-image"

/-- Constant `MIN_OCR_LINES` from `backend/handlers/process.py`. -/
def MIN_OCR_LINES : Nat := 3

/-- Characters Python's `str.splitlines()` treats as line boundaries. -/
def isLineBreak (c : Char) : Bool :=
  [10, 13, 11, 12, 28, 29, 30, 133, 8232, 8233].contains c.toNat

/-- Python `str.splitlines()`, with `\r\n` a single boundary and no entry for
a trailing boundary. -/
def splitlinesAux : List Char → List Char → List String
  | [], [] => []
  | [], acc => [String.mk acc.reverse]
  | '\r' :: '\n' :: rest, acc => String.mk acc.reverse :: splitlinesAux rest []
  | c :: rest, acc =>
    if isLineBreak c then
      String.mk acc.reverse :: splitlinesAux rest []
    else
      splitlinesAux rest (c :: acc)

/-- Expression `len(raw_text.strip().splitlines())` from `_extract_dishes`. -/
def lineCount (raw : String) : Nat :=
  (splitlinesAux (pyStrip raw).data []).length

/-- The external-call outcomes one handler invocation can observe. `ocr` is
the result of `extract_text` (an `OCRExtractionError` -- including
"No text detected in the uploaded image" -- or any other exception collapses
to the error case, as `_extract_dishes` catches `(OCRExtractionError,
Exception)`); `llm` is what `structure_menu` would return on the OCR text;
`vision` is what `structure_menu_from_image` would return; each is consulted
at most once. `order` is the completion order in which `as_completed` yields
the image futures; `genOutcome` tells whether dish `idx`'s generation
produced bytes; `urlFor` is the presigned URL `store_image` returns for dish
`idx`. -/
structure HandlerEnv where
  job_id : String
  ocr : Except String String
  llm : Except String (List DishRecord)
  vision : Except String (List DishRecord)
  order : List Nat
  genOutcome : Nat → Bool
  urlFor : Nat → String

/-- Extraction chain `_extract_dishes` (`backend/handlers/process.py` lines 56-98): try
Textract OCR; on any exception fall back to vision; with at least
`MIN_OCR_LINES` lines, structure the text (an `LLMProcessingError` inside
the `try` also falls back to vision); zero structured dishes despite
non-empty text fall back to vision; otherwise return the structured dishes.
Fewer than `MIN_OCR_LINES` lines also falls back to vision. -/
def extract_dishes (env : HandlerEnv) : Except String (List DishRecord) :=
  match env.ocr with
  | .error _ => env.vision
  | .ok raw =>
    if MIN_OCR_LINES ≤ lineCount raw then
      match env.llm with
      | .error _ => env.vision
      | .ok dishes =>
        if dishes.isEmpty && 0 < lineCount raw then env.vision
        else .ok dishes
    else env.vision

/-- Assignment `dishes[idx].image_url = url` on the mutable dish list (out-of-range
indices leave the list unchanged; the handler only produces in-range
indices). -/
def assignImage : List DishRecord → Nat → String → List DishRecord
  | [], _, _ => []
  | d :: rest, 0, url => { d with image_url := some url } :: rest
  | d :: rest, n + 1, url => d :: assignImage rest n url

/-- The mutable state of the handler's image fan-in loop. -/
structure LoopState where
  dishes : List DishRecord
  any_failed : Bool
  completed_count : Nat
deriving Repr

/-- The incremental status the handler publishes after a completion:
`PROCESSING` until the last outcome, then `PARTIAL` on any failure and
`COMPLETED` otherwise. -/
def incStatus (completed_count total : Nat) (any_failed : Bool) : JobStatus :=
  if completed_count < total then .PROCESSING
  else if any_failed then .PARTIAL
  else .COMPLETED

/-- The `as_completed` fan-in loop of `handler` (`backend/handlers/process.py`
lines 155-179): for each completed future, assign the stored-image URL on
success or `PLACEHOLDER_IMAGE_URL` on failure, then republish the whole
`MenuResult`. Returns the final loop state and the list of published
results, in publication order. -/
def imageLoop (env : HandlerEnv) (total : Nat) :
    LoopState → List Nat → LoopState × List MenuResult
  | st, [] => (st, [])
  | st, idx :: rest =>
    let url := if env.genOutcome idx then env.urlFor idx else PLACEHOLDER_IMAGE_URL
    let dishes2 := assignImage st.dishes idx url
    let any2 := st.any_failed || !env.genOutcome idx
    let count2 := st.completed_count + 1
    let pub : MenuResult :=
      { job_id := env.job_id, status := incStatus count2 total any2, dishes := dishes2 }
    let next := imageLoop env total { dishes := dishes2, any_failed := any2, completed_count := count2 } rest
    (next.1, pub :: next.2)

/-- Orchestrator `handler` (`backend/handlers/process.py` lines 101-203), as the sequence
of `MenuResult`s it publishes through `store_results`, in order: a single
`FAILED` result when extraction fails (the `OCRExtractionError /
LLMProcessingError` handler publishes `str(exc)`); a single empty
`COMPLETED` result when extraction yields no dishes; otherwise an
intermediate `PROCESSING` result followed by one republication per completed
image future. The S3 read and stores are modelled as succeeding; their
failure would be the generic catch-all, outside the claims under test. -/
def handler (env : HandlerEnv) : List MenuResult :=
  match extract_dishes env with
  | .error msg => [{ job_id := env.job_id, status := .FAILED, error_message := some msg }]
  | .ok dishes =>
    if dishes.isEmpty then [{ job_id := env.job_id, status := .COMPLETED, dishes := [] }]
    else
      { job_id := env.job_id, status := .PROCESSING, dishes := dishes } ::
        (imageLoop env dishes.length { dishes := dishes, any_failed := false, completed_count := 0 } env.order).2

end Backend

/-! ## Pipeline orchestrator (`menu_vision/pipeline.py`) -/

namespace MenuVision

/-- Constant `PLACEHOLDER_IMAGE_URL` from `menu_vision/pipeline.py`. -/
def PLACEHOLDER_IMAGE_URL : String := "placeholder://no-image"

/-- How `run_pipeline` acquires image bytes: bytes passed directly, a path
whose read succeeds or raises an `OSError` (carrying the exception text), or
neither argument supplied. -/
inductive ImageSource where
  | bytesGiven
  | pathGiven (read : Except String Unit)
  | nothingGiven
deriving Repr

/-- The external outcomes one `run_pipeline` invocation can observe: the
image acquisition, `extract_text`, `structure_menu` on the extracted text,
the advisory wall-clock checks before and after image generation, and the
per-index outcome of `generate_all_dish_images` (whose public ordering is
index-ascending). -/
structure PipelineEnv where
  ocr : Except String String
  llm : Except String (List DishRecord)
  input : ImageSource
  timeoutBeforeGen : Bool
  genOutcome : Nat → Bool
  timeoutAfterGen : Bool
  job_id : String

/-- Assignment `dishes[idx].image_url = url` on the mutable dish list. -/
def assignImage : List DishRecord → Nat → String → List DishRecord
  | [], _, _ => []
  | d :: rest, 0, url => { d with image_url := some url } :: rest
  | d :: rest, n + 1, url => d :: assignImage rest n url

/-- The `for idx, img_bytes in image_results` fan-in loop of `run_pipeline`:
`generate_all_dish_images` returns one `(idx, bytes-or-None)` per dish index
in ascending index order, so the loop walks `range(len(dishes))`, assigning
`generated://dish_{idx}.png` or the placeholder and accumulating
`any_failed`. -/
def pipelineImageLoop (env : PipelineEnv) :
    List DishRecord × Bool → List Nat → List DishRecord × Bool
  | st, [] => st
  | (dishes, any_failed), idx :: rest =>
    if env.genOutcome idx then
      pipelineImageLoop env
        (assignImage dishes idx ("generated://dish_" ++ toString idx ++ ".png"), any_failed) rest
    else
      pipelineImageLoop env
        (assignImage dishes idx PLACEHOLDER_IMAGE_URL, true) rest

/-- Orchestrator `run_pipeline` (`menu_vision/pipeline.py` lines 21-131): acquire bytes
(failures return `FAILED` with the corresponding message); OCR (an
`OCRExtractionError` returns `FAILED`); structure (an `LLMProcessingError`
returns `FAILED`); an empty dish list returns `COMPLETED` with no dishes; a
timeout before image generation assigns every dish the placeholder and
returns `PARTIAL` with an explanatory `error_message`; otherwise the image
fan-in runs and the result is `PARTIAL` when the post-generation timeout
check fires or any dish failed, else `COMPLETED`, with no error message. -/
def run_pipeline (env : PipelineEnv) : MenuResult :=
  match env.input with
  | .nothingGiven =>
    { job_id := env.job_id, status := .FAILED,
      error_message := some "Either image_path or image_bytes must be provided" }
  | .pathGiven (.error e) =>
    { job_id := env.job_id, status := .FAILED,
      error_message := some ("Failed to read image file: " ++ e) }
  | _ =>
    match env.ocr with
    | .error e =>
      { job_id := env.job_id, status := .FAILED,
        error_message := some ("OCR extraction failed: " ++ e) }
    | .ok _ =>
      match env.llm with
      | .error e =>
        { job_id := env.job_id, status := .FAILED,
          error_message := some ("LLM processing failed: " ++ e) }
      | .ok dishes =>
        if dishes.isEmpty then
          { job_id := env.job_id, status := .COMPLETED, dishes := [] }
        else if env.timeoutBeforeGen then
          { job_id := env.job_id, status := .PARTIAL,
            dishes := dishes.map (fun d => { d with image_url := some PLACEHOLDER_IMAGE_URL }),
            error_message := some "Timeout reached before image generation could start" }
        else
          let res := pipelineImageLoop env (dishes, false) (List.range dishes.length)
          { job_id := env.job_id,
            status := if env.timeoutAfterGen || res.2 then .PARTIAL else .COMPLETED,
            dishes := res.1 }

end MenuVision

/-- A concrete handler environment in which OCR reports no text and the
vision fallback itself fails. -/
def c5Env : Backend.HandlerEnv :=
  { job_id := "job-1"
    ocr := .error "No text detected in the uploaded image"
    llm := .ok []
    vision := .error "Bedrock invoke_model failed: boom"
    order := []
    genOutcome := fun _ => true
    urlFor := fun _ => "" }

/-- A concrete handler environment in which OCR misses and the vision
fallback succeeds with zero dishes (the spec's blank-image scenario). -/
def c8Env : Backend.HandlerEnv :=
  { job_id := "job-2"
    ocr := .error "No text detected in the uploaded image"
    llm := .ok []
    vision := .ok []
    order := []
    genOutcome := fun _ => true
    urlFor := fun _ => "" }

/-- A concrete pipeline environment that reaches the pre-generation timeout
checkpoint with a non-empty dish list. -/
def c9Env : MenuVision.PipelineEnv :=
  { ocr := .ok "menu text"
    llm := .ok [{ original_name := "Dish" }]
    input := .bytesGiven
    timeoutBeforeGen := true
    genOutcome := fun _ => true
    timeoutAfterGen := false
    job_id := "job-9" }

/-- A concrete handler environment with two extracted dishes, completion
order [1, 0], dish 0 succeeding and dish 1 failing image generation. -/
def c1Env : Backend.HandlerEnv :=
  { job_id := "job-3"
    ocr := .ok "a\nb\nc"
    llm := .ok [{ original_name := "A" }, { original_name := "B" }]
    vision := .ok []
    order := [1, 0]
    genOutcome := fun i => i == 0
    urlFor := fun i => "https://img/" ++ toString i }

/-! ## Theorems -/

/-- C6. Code-bug evidence: `_nullable_str`'s own docstring says "Return a
stripped string or None if the value is falsy or not a string", and the
claim says a non-string optional field is normalized to absent; the code
instead returns `str(value)`, so a numeric `price` of `12` yields the
fabricated string `"12"` rather than an absent field. -/
theorem C6_nullable_str_converts_non_strings :
    nullable_str (Json.num 12) = some "12" ∧
    (Backend.dishesOfItems
        [Json.obj [("original_name", Json.str "Dish"), ("price", Json.num 12)]]).map
      (fun d => d.price) = [some "12"] :=
  ⟨rfl, rfl⟩

/-- C7. Counterexample to "the resulting ingredients list never contains
null or empty-string placeholder entries": an empty-string ingredient in the
input survives to the output list (`str("")` is `""` and only `None` entries
are filtered). -/
theorem C7_counterexample_empty_string_kept :
    (Backend.dishesOfItems
        [Json.obj [("original_name", Json.str "Dish"),
                   ("ingredients", Json.arr [Json.str "", Json.null, Json.str "beef"])]]).map
      (fun d => d.ingredients) = [["", "beef"]] :=
  rfl

/-- C7 (amended). An `ingredients` value that is absent, null, or not a list
becomes an empty list; null entries inside a list are dropped (the output
length is the number of non-null entries) and every string entry survives
unchanged -- including empty strings, which are not filtered out. -/
theorem C7_ingredients_normalized (v : Json) (xs : List Json) (s : String) :
    ((∀ ys, v ≠ Json.arr ys) → ingredientsOf v = []) ∧
    (ingredientsOf (Json.arr xs)).length + xs.countP (fun x => x.isNull) = xs.length ∧
    (Json.str s ∈ xs → s ∈ ingredientsOf (Json.arr xs)) := by
  refine ⟨?_, ?_, ?_⟩
  · intro h
    cases v with
    | arr ys => exact absurd rfl (h ys)
    | null => rfl
    | bool b => rfl
    | num n => rfl
    | str t => rfl
    | obj fs => rfl
  · simp only [ingredientsOf, List.length_map]
    induction xs with
    | nil => rfl
    | cons x rest ih =>
      cases x <;> simp [Json.isNull] at ih ⊢ <;> omega
  · intro hmem
    simp only [ingredientsOf]
    refine List.mem_map.mpr ⟨Json.str s, ?_, rfl⟩
    refine List.mem_filter.mpr ⟨hmem, ?_⟩
    rfl

/-- C7 witness: the amended theorem applied at a concrete non-list value, a
concrete mixed list, and a concrete string member. -/
theorem C7_ingredients_normalized_witness :
    ingredientsOf (Json.num 7) = [] ∧
    (ingredientsOf (Json.arr [Json.str "a", Json.null])).length +
      ([Json.str "a", Json.null].countP (fun x => x.isNull)) = 2 ∧
    "a" ∈ ingredientsOf (Json.arr [Json.str "a", Json.null]) := by
  obtain ⟨h1, h2, h3⟩ := C7_ingredients_normalized (Json.num 7) [Json.str "a", Json.null] "a"
  exact ⟨h1 (fun ys h => by cases h), h2, h3 (by simp)⟩

/-- C2. Counterexample to "skips entries whose `original_name` is missing,
blank, or non-string" and to "every produced DishRecord has a non-empty
... `original_name`": a whitespace-only name is truthy and a string, so the
guard keeps the entry, and stripping then leaves an empty `original_name`. -/
theorem C2_counterexample_blank_name_kept :
    (Backend.dishesOfItems [Json.obj [("original_name", Json.str " ")]]).map
      (fun d => d.original_name) = [""] :=
  rfl

/-- C2 (amended). Parsing a decoded JSON array produces exactly one
DishRecord per entry that is an object whose `original_name` is a non-empty
string; entries with a missing, empty-string, or non-string `original_name`
(and non-object entries) are skipped; and every produced record's
`original_name` is the whitespace-trimmed source name -- which is the empty
string when the source name was whitespace-only. -/
theorem C2_dishes_per_valid_entry (items : List Json) :
    (Backend.dishesOfItems items).length =
      (items.filter (fun it =>
        match it with
        | Json.obj fields =>
          match dictGet fields "original_name" with
          | Json.str s => s != ""
          | _ => false
        | _ => false)).length ∧
    ∀ d ∈ Backend.dishesOfItems items, ∃ fields s,
      Json.obj fields ∈ items ∧ dictGet fields "original_name" = Json.str s ∧
      s ≠ "" ∧ d.original_name = pyStrip s := by
  induction items with
  | nil => exact ⟨rfl, by intro d hd; cases hd⟩
  | cons it rest ih =>
    obtain ⟨ih1, ih2⟩ := ih
    cases it with
    | obj fields =>
      cases hname : dictGet fields "original_name" with
      | str s =>
        by_cases hs : s = ""
        · subst hs
          constructor
          · simpa [Backend.dishesOfItems, hname, Json.truthy, Json.isStr] using ih1
          · intro d hd
            simp only [Backend.dishesOfItems, hname] at hd
            norm_num [Json.truthy, Json.isStr] at hd
            obtain ⟨fs, s2, hmem, h1, h2, h3⟩ := ih2 d hd
            exact ⟨fs, s2, List.mem_cons_of_mem _ hmem, h1, h2, h3⟩
        · constructor
          · simpa [Backend.dishesOfItems, hname, Json.truthy, Json.isStr, hs] using ih1
          · intro d hd
            simp only [Backend.dishesOfItems, hname] at hd
            rw [if_neg] at hd
            · rw [List.mem_cons] at hd
              rcases hd with hd | hd
              · refine ⟨fields, s, List.mem_cons_self _ _, hname, hs, ?_⟩
                rw [hd]
                rfl
              · obtain ⟨fs, s2, hmem, h1, h2, h3⟩ := ih2 d hd
                exact ⟨fs, s2, List.mem_cons_of_mem _ hmem, h1, h2, h3⟩
            · simp [Json.truthy, Json.isStr, hs]
      | null =>
        refine ⟨by simpa [Backend.dishesOfItems, hname, Json.truthy, Json.isStr] using ih1, ?_⟩
        intro d hd
        simp only [Backend.dishesOfItems, hname] at hd
        norm_num [Json.truthy, Json.isStr] at hd
        obtain ⟨fs, s2, hmem, h1, h2, h3⟩ := ih2 d hd
        exact ⟨fs, s2, List.mem_cons_of_mem _ hmem, h1, h2, h3⟩
      | bool b =>
        refine ⟨by simpa [Backend.dishesOfItems, hname, Json.truthy, Json.isStr] using ih1, ?_⟩
        intro d hd
        simp only [Backend.dishesOfItems, hname] at hd
        rw [if_pos (by simp [Json.truthy, Json.isStr])] at hd
        obtain ⟨fs, s2, hmem, h1, h2, h3⟩ := ih2 d hd
        exact ⟨fs, s2, List.mem_cons_of_mem _ hmem, h1, h2, h3⟩
      | num n =>
        refine ⟨by simpa [Backend.dishesOfItems, hname, Json.truthy, Json.isStr] using ih1, ?_⟩
        intro d hd
        simp only [Backend.dishesOfItems, hname] at hd
        rw [if_pos (by simp [Json.truthy, Json.isStr])] at hd
        obtain ⟨fs, s2, hmem, h1, h2, h3⟩ := ih2 d hd
        exact ⟨fs, s2, List.mem_cons_of_mem _ hmem, h1, h2, h3⟩
      | arr ys =>
        refine ⟨by simpa [Backend.dishesOfItems, hname, Json.truthy, Json.isStr] using ih1, ?_⟩
        intro d hd
        simp only [Backend.dishesOfItems, hname] at hd
        rw [if_pos (by simp [Json.truthy, Json.isStr])] at hd
        obtain ⟨fs, s2, hmem, h1, h2, h3⟩ := ih2 d hd
        exact ⟨fs, s2, List.mem_cons_of_mem _ hmem, h1, h2, h3⟩
      | obj fs2 =>
        refine ⟨by simpa [Backend.dishesOfItems, hname, Json.truthy, Json.isStr] using ih1, ?_⟩
        intro d hd
        simp only [Backend.dishesOfItems, hname] at hd
        rw [if_pos (by simp [Json.truthy, Json.isStr])] at hd
        obtain ⟨fs, s2, hmem, h1, h2, h3⟩ := ih2 d hd
        exact ⟨fs, s2, List.mem_cons_of_mem _ hmem, h1, h2, h3⟩
    | null =>
      refine ⟨by simpa [Backend.dishesOfItems] using ih1, ?_⟩
      intro d hd
      simp only [Backend.dishesOfItems] at hd
      obtain ⟨fs, s2, hmem, h1, h2, h3⟩ := ih2 d hd
      exact ⟨fs, s2, List.mem_cons_of_mem _ hmem, h1, h2, h3⟩
    | bool b =>
      refine ⟨by simpa [Backend.dishesOfItems] using ih1, ?_⟩
      intro d hd
      simp only [Backend.dishesOfItems] at hd
      obtain ⟨fs, s2, hmem, h1, h2, h3⟩ := ih2 d hd
      exact ⟨fs, s2, List.mem_cons_of_mem _ hmem, h1, h2, h3⟩
    | num n =>
      refine ⟨by simpa [Backend.dishesOfItems] using ih1, ?_⟩
      intro d hd
      simp only [Backend.dishesOfItems] at hd
      obtain ⟨fs, s2, hmem, h1, h2, h3⟩ := ih2 d hd
      exact ⟨fs, s2, List.mem_cons_of_mem _ hmem, h1, h2, h3⟩
    | str t =>
      refine ⟨by simpa [Backend.dishesOfItems] using ih1, ?_⟩
      intro d hd
      simp only [Backend.dishesOfItems] at hd
      obtain ⟨fs, s2, hmem, h1, h2, h3⟩ := ih2 d hd
      exact ⟨fs, s2, List.mem_cons_of_mem _ hmem, h1, h2, h3⟩
    | arr ys =>
      refine ⟨by simpa [Backend.dishesOfItems] using ih1, ?_⟩
      intro d hd
      simp only [Backend.dishesOfItems] at hd
      obtain ⟨fs, s2, hmem, h1, h2, h3⟩ := ih2 d hd
      exact ⟨fs, s2, List.mem_cons_of_mem _ hmem, h1, h2, h3⟩

/-- C2 witness: the amended theorem applied to a concrete three-entry array
(one valid dish, one missing name, one numeric name): exactly one record is
produced and it satisfies the trimmed-name property. -/
theorem C2_dishes_per_valid_entry_witness :
    (Backend.dishesOfItems
        [Json.obj [("original_name", Json.str " Pho ")],
         Json.obj [("price", Json.str "5")],
         Json.obj [("original_name", Json.num 3)]]).length = 1 ∧
    ∃ fields s,
      Json.obj fields ∈
        [Json.obj [("original_name", Json.str " Pho ")],
         Json.obj [("price", Json.str "5")],
         Json.obj [("original_name", Json.num 3)]] ∧
      dictGet fields "original_name" = Json.str s ∧ s ≠ "" ∧
      ({ original_name := "Pho" } : Backend.DishRecord).original_name = pyStrip s := by
  obtain ⟨h1, h2⟩ := C2_dishes_per_valid_entry
    [Json.obj [("original_name", Json.str " Pho ")],
     Json.obj [("price", Json.str "5")],
     Json.obj [("original_name", Json.num 3)]]
  refine ⟨by rw [h1]; rfl, ?_⟩
  exact h2 { original_name := "Pho" } (by rw [show Backend.dishesOfItems
    [Json.obj [("original_name", Json.str " Pho ")],
     Json.obj [("price", Json.str "5")],
     Json.obj [("original_name", Json.num 3)]] = [{ original_name := "Pho" }] from rfl]; simp)

/-- The two textually identical item-validation loops produce the same
records, up to forgetting the backend's never-populated `cuisine` field. -/
theorem dishesOfItems_mv_eq (items : List Json) :
    MenuVision.dishesOfItems items = (Backend.dishesOfItems items).map mvOfDish := by
  induction items with
  | nil => rfl
  | cons it rest ih =>
    cases it with
    | obj fields =>
      simp only [MenuVision.dishesOfItems, Backend.dishesOfItems]
      by_cases h :
          (!(dictGet fields "original_name").truthy || !(dictGet fields "original_name").isStr) = true
      · rw [if_pos h, if_pos h, ih]
      · rw [if_neg h, if_neg h]
        simp [ih, mvOfDish]
    | null => simp only [MenuVision.dishesOfItems, Backend.dishesOfItems]; exact ih
    | bool b => simp only [MenuVision.dishesOfItems, Backend.dishesOfItems]; exact ih
    | num n => simp only [MenuVision.dishesOfItems, Backend.dishesOfItems]; exact ih
    | str t => simp only [MenuVision.dishesOfItems, Backend.dishesOfItems]; exact ih
    | arr ys => simp only [MenuVision.dishesOfItems, Backend.dishesOfItems]; exact ih

/-- C10. On every model response whose fence-stripped text strict JSON
parsing accepts, the OCR-only variant's parser and the fallback-capable
variant's parser return identical dish lists (the same records in the same
order, the backend record carrying its never-populated `cuisine` default);
the truncation-recovery path that distinguishes them runs only when strict
parsing fails. -/
theorem C10_parsers_agree_on_strict_json (text : String) (j : Json)
    (h : jsonParse (stripCodeFence (pyStrip text)) = some j) :
    MenuVision.parse_llm_response text =
      (Backend.parse_llm_response text).map (List.map mvOfDish) := by
  simp only [MenuVision.parse_llm_response, Backend.parse_llm_response, h]
  cases j with
  | arr items => simp [Except.map, dishesOfItems_mv_eq]
  | null => rfl
  | bool b => rfl
  | num n => rfl
  | str s => rfl
  | obj fields => rfl

/-- C10 witness: the agreement theorem applied to the concrete strictly
parseable response `[{"original_name": "Pad Thai"}]`. -/
theorem C10_parsers_agree_witness :
    MenuVision.parse_llm_response "[\x7b\"original_name\": \"Pad Thai\"\x7d]" =
      (Backend.parse_llm_response "[\x7b\"original_name\": \"Pad Thai\"\x7d]").map
        (List.map mvOfDish) :=
  C10_parsers_agree_on_strict_json _ (Json.arr [Json.obj [("original_name", Json.str "Pad Thai")]]) rfl

/-- A text containing no closing brace leaves the recovery scan's
`last_complete` untouched, whatever the position, depth and string state. -/
theorem recoverScan_no_rbrace (cs : List Char) (h : ∀ c ∈ cs, c ≠ rbraceChar) :
    ∀ (i : Nat) (d : Int) (instr esc : Bool) (L : Int), recoverScan cs i d instr esc L = L := by
  induction cs with
  | nil => intro i d instr esc L; rfl
  | cons c rest ih =>
    intro i d instr esc L
    have hc : c ≠ rbraceChar := h c (List.mem_cons_self _ _)
    have hrest : ∀ x ∈ rest, x ≠ rbraceChar := fun x hx => h x (List.mem_cons_of_mem _ hx)
    have hb : (c == rbraceChar) = false := by simpa using hc
    simp only [recoverScan, hb, Bool.false_eq_true, if_false]
    repeat' split
    all_goals exact ih hrest _ _ _ _ _

/-- C3. Truncation recovery behaves as specified: on the spec's scenario
(a response cut mid-object) strict parsing fails and
`_recover_truncated_json` recovers exactly the complete leading object,
discarding the incomplete fragment; with two complete leading objects both
survive; a text in which no object closes at all is unrecoverable, and then
`parse_llm_response` raises the structuring error. -/
theorem C3_truncation_recovery :
    (jsonParse "[\x7b\"original_name\":\"A\"\x7d,\x7b\"original_name\":\"B" = none ∧
      Backend.parse_llm_response "[\x7b\"original_name\":\"A\"\x7d,\x7b\"original_name\":\"B" =
        .ok [{ original_name := "A" }]) ∧
    Backend.parse_llm_response
        "[\x7b\"original_name\":\"A\"\x7d,\x7b\"original_name\":\"B\"\x7d,\x7b\"origi" =
      .ok [{ original_name := "A" }, { original_name := "B" }] ∧
    (∀ text : String, (∀ c ∈ text.data, c ≠ rbraceChar) →
      recover_truncated_json text = none) ∧
    (∀ text : String,
      jsonParse (stripCodeFence (pyStrip text)) = none →
      (∀ c ∈ (stripCodeFence (pyStrip text)).data, c ≠ rbraceChar) →
      Backend.parse_llm_response text =
        .error "Failed to parse LLM response as JSON and could not recover partial array") := by
  refine ⟨⟨rfl, rfl⟩, rfl, ?_, ?_⟩
  · intro text h
    simp only [recover_truncated_json, recoverScan_no_rbrace text.data h]
    rfl
  · intro text hparse hnobrace
    have hrec : recover_truncated_json (stripCodeFence (pyStrip text)) = none := by
      simp only [recover_truncated_json,
        recoverScan_no_rbrace (stripCodeFence (pyStrip text)).data hnobrace]
      rfl
    simp only [Backend.parse_llm_response, hparse, hrec]

/-- C3 witness: the general conjuncts applied to the concrete unrecoverable
text `"abc"` (no closing brace, strict parse fails). -/
theorem C3_truncation_recovery_witness :
    recover_truncated_json "abc" = none ∧
    Backend.parse_llm_response "abc" =
      .error "Failed to parse LLM response as JSON and could not recover partial array" :=
  ⟨C3_truncation_recovery.2.2.1 "abc" (by decide),
   C3_truncation_recovery.2.2.2 "abc" rfl (by decide)⟩

/-- C4. The per-dish retry loop: after `k` throttling signals (`k` below the
3-attempt budget) a success returns the generated image and a non-throttling
error returns a per-dish failure immediately, in both cases having slept
exactly `base * 2 ^ attempt` for attempts `0 .. k-1`; three consecutive
throttles exhaust the budget and yield a per-dish failure (no exception),
with delays base*1, base*2, base*4 issued. -/
theorem C4_retry_policy :
    (∀ (gen : Nat → Backend.GenOutcome) (idx k : Nat) (img : String),
      k < Backend.MAX_RETRIES → (∀ j < k, gen j = .throttle) → gen k = .success img →
      Backend.generate_with_retry gen idx =
        ((idx, some img), (List.range k).map (fun j => Backend.BASE_DELAY * 2 ^ j))) ∧
    (∀ (gen : Nat → Backend.GenOutcome) (idx k : Nat),
      k < Backend.MAX_RETRIES → (∀ j < k, gen j = .throttle) → gen k = .failure →
      Backend.generate_with_retry gen idx =
        ((idx, none), (List.range k).map (fun j => Backend.BASE_DELAY * 2 ^ j))) ∧
    (∀ (gen : Nat → Backend.GenOutcome) (idx : Nat),
      (∀ j < Backend.MAX_RETRIES, gen j = .throttle) →
      Backend.generate_with_retry gen idx =
        ((idx, none),
          [Backend.BASE_DELAY * 1, Backend.BASE_DELAY * 2, Backend.BASE_DELAY * 4])) := by
  have hrange : List.range Backend.MAX_RETRIES = [0, 1, 2] := rfl
  refine ⟨?_, ?_, ?_⟩
  · intro gen idx k img hk hth hsucc
    have hk3 : k < 3 := hk
    interval_cases k
    · simp [Backend.generate_with_retry, hrange, Backend.retryFrom, hsucc]
    · simp [Backend.generate_with_retry, hrange, Backend.retryFrom,
        hth 0 (by decide), hsucc, List.range_succ]
    · simp [Backend.generate_with_retry, hrange, Backend.retryFrom,
        hth 0 (by decide), hth 1 (by decide), hsucc, List.range_succ]
  · intro gen idx k hk hth hfail
    have hk3 : k < 3 := hk
    interval_cases k
    · simp [Backend.generate_with_retry, hrange, Backend.retryFrom, hfail]
    · simp [Backend.generate_with_retry, hrange, Backend.retryFrom,
        hth 0 (by decide), hfail, List.range_succ]
    · simp [Backend.generate_with_retry, hrange, Backend.retryFrom,
        hth 0 (by decide), hth 1 (by decide), hfail, List.range_succ]
  · intro gen idx hth
    simp [Backend.generate_with_retry, hrange, Backend.retryFrom,
      hth 0 (by decide), hth 1 (by decide), hth 2 (by decide)]
    norm_num

/-- C4 witness: the spec's scenario -- two throttles then success -- yields
the generated image with backoff delays base*1 then base*2. -/
theorem C4_retry_policy_witness :
    Backend.generate_with_retry
        (fun j => if j < 2 then Backend.GenOutcome.throttle else Backend.GenOutcome.success "img") 7 =
      ((7, some "img"), [Backend.BASE_DELAY * 1, Backend.BASE_DELAY * 2]) := by
  have h := C4_retry_policy.1
    (fun j => if j < 2 then Backend.GenOutcome.throttle else Backend.GenOutcome.success "img")
    7 2 "img" (by decide) (fun j hj => by interval_cases j <;> rfl) rfl
  rw [h]
  norm_num [List.range_succ]

/-- C5. Every OCR-side miss triggers the vision fallback instead of failing
the job: an OCR-service error of any kind, a line count below
`MIN_OCR_LINES`, a structuring error on the OCR text, and OCR text that
structures into zero dishes all make `_extract_dishes` return exactly what
the vision path returns; an extraction error can only be a vision-path
error, and only then does the handler publish a single `FAILED` result
carrying that cause. -/
theorem C5_ocr_failures_fall_back_to_vision :
    (∀ (env : Backend.HandlerEnv) (e : String), env.ocr = .error e →
      Backend.extract_dishes env = env.vision) ∧
    (∀ (env : Backend.HandlerEnv) (raw : String), env.ocr = .ok raw →
      Backend.lineCount raw < Backend.MIN_OCR_LINES →
      Backend.extract_dishes env = env.vision) ∧
    (∀ (env : Backend.HandlerEnv) (raw e : String), env.ocr = .ok raw →
      Backend.MIN_OCR_LINES ≤ Backend.lineCount raw → env.llm = .error e →
      Backend.extract_dishes env = env.vision) ∧
    (∀ (env : Backend.HandlerEnv) (raw : String), env.ocr = .ok raw →
      Backend.MIN_OCR_LINES ≤ Backend.lineCount raw → env.llm = .ok [] →
      Backend.extract_dishes env = env.vision) ∧
    (∀ (env : Backend.HandlerEnv) (e : String),
      Backend.extract_dishes env = .error e → env.vision = .error e) ∧
    (∀ (env : Backend.HandlerEnv) (e : String),
      Backend.extract_dishes env = .error e →
      Backend.handler env =
        [{ job_id := env.job_id, status := .FAILED, error_message := some e }]) := by
  refine ⟨?_, ?_, ?_, ?_, ?_, ?_⟩
  · intro env e h
    simp only [Backend.extract_dishes, h]
  · intro env raw h hlc
    simp only [Backend.extract_dishes, h]
    rw [if_neg (by omega)]
  · intro env raw e h hlc hllm
    simp only [Backend.extract_dishes, h, hllm]
    rw [if_pos hlc]
  · intro env raw h hlc hllm
    simp only [Backend.extract_dishes, h, hllm]
    rw [if_pos hlc, if_pos]
    simp only [List.isEmpty_nil, Bool.true_and, decide_eq_true_eq]
    exact lt_of_lt_of_le (by decide) hlc
  · intro env e h
    cases hocr : env.ocr with
    | error e2 =>
      simp only [Backend.extract_dishes, hocr] at h
      exact h
    | ok raw =>
      simp only [Backend.extract_dishes, hocr] at h
      by_cases hlc : Backend.MIN_OCR_LINES ≤ Backend.lineCount raw
      · rw [if_pos hlc] at h
        cases hllm : env.llm with
        | error e2 => simp only [hllm] at h; exact h
        | ok ds =>
          simp only [hllm] at h
          split at h
          · exact h
          · cases h
      · rw [if_neg hlc] at h; exact h
  · intro env e h
    unfold Backend.handler
    rw [h]

/-- C5 witness: with a concrete environment where OCR detects no text and
the vision model call fails, extraction returns the vision error and the
handler publishes exactly one `FAILED` result with that cause. -/
theorem C5_ocr_failures_fall_back_witness :
    Backend.extract_dishes c5Env = c5Env.vision ∧
    Backend.handler c5Env =
      [{ job_id := "job-1", status := .FAILED,
         error_message := some "Bedrock invoke_model failed: boom" }] := by
  have h1 := C5_ocr_failures_fall_back_to_vision.1 c5Env
    "No text detected in the uploaded image" rfl
  refine ⟨h1, ?_⟩
  have h2 := C5_ocr_failures_fall_back_to_vision.2.2.2.2.2 c5Env
    "Bedrock invoke_model failed: boom" (by rw [h1]; rfl)
  exact h2

/-- C8. Extraction succeeding with an empty dish list makes the handler
publish exactly one result: `COMPLETED` with an empty dish list and no error
message -- the job is not marked `FAILED` and no further publication
happens. -/
theorem C8_empty_dishes_completed (env : Backend.HandlerEnv)
    (h : Backend.extract_dishes env = .ok []) :
    Backend.handler env =
      [{ job_id := env.job_id, status := .COMPLETED, dishes := [] }] := by
  unfold Backend.handler
  rw [h]
  rfl

/-- C8 witness: the spec's blank-image scenario -- OCR misses and the vision
fallback returns zero dishes -- publishes a single empty `COMPLETED`
result. -/
theorem C8_empty_dishes_completed_witness :
    Backend.handler c8Env =
      [{ job_id := "job-2", status := .COMPLETED, dishes := [] }] :=
  C8_empty_dishes_completed c8Env rfl

/-- The incremental statuses the handler's fan-in loop publishes are never
`FAILED`. -/
theorem incStatus_ne_failed (c t : Nat) (a : Bool) :
    Backend.incStatus c t a ≠ .FAILED := by
  unfold Backend.incStatus
  split
  · simp
  · split <;> simp

/-- The post-generation status choice is never `FAILED`. -/
theorem partial_or_completed_ne_failed (c : Bool) :
    (if c = true then JobStatus.PARTIAL else JobStatus.COMPLETED) ≠ JobStatus.FAILED := by
  cases c <;> simp

/-- Every result the handler's fan-in loop publishes carries no error
message and a non-`FAILED` status. -/
theorem imageLoop_error_none (env : Backend.HandlerEnv) (total : Nat) :
    ∀ (order : List Nat) (st : Backend.LoopState),
      ∀ r ∈ (Backend.imageLoop env total st order).2,
        r.error_message = none ∧ r.status ≠ .FAILED := by
  intro order
  induction order with
  | nil =>
    intro st r hr
    simp [Backend.imageLoop] at hr
  | cons idx rest ih =>
    intro st r hr
    simp only [Backend.imageLoop] at hr
    rcases List.mem_cons.mp hr with h | h
    · subst h
      exact ⟨rfl, incStatus_ne_failed _ _ _⟩
    · exact ih _ r h

/-- C9 counterexample: the pre-generation timeout branch of `run_pipeline`
returns a `PARTIAL` result that does carry an `error_message`, so a
non-`failed` result can carry one. -/
theorem C9_counterexample_partial_with_message :
    (MenuVision.run_pipeline c9Env).status = .PARTIAL ∧
    (MenuVision.run_pipeline c9Env).error_message =
      some "Timeout reached before image generation could start" :=
  ⟨rfl, rfl⟩

/-- C9 (amended). `error_message` is always populated when `status = failed`
and never on `processing` or `completed` results; a `partial` result carries
an error message exactly in the pre-generation-timeout branch (with that
branch's fixed message), and every result the backend handler publishes has
an error message if and only if it is `FAILED`. -/
theorem C9_error_message_discipline :
    (∀ env : MenuVision.PipelineEnv,
      ((MenuVision.run_pipeline env).status = .FAILED →
        ((MenuVision.run_pipeline env).error_message).isSome = true) ∧
      ((MenuVision.run_pipeline env).status = .PROCESSING ∨
          (MenuVision.run_pipeline env).status = .COMPLETED →
        (MenuVision.run_pipeline env).error_message = none) ∧
      ((MenuVision.run_pipeline env).status = .PARTIAL →
        (MenuVision.run_pipeline env).error_message = none ∨
          (MenuVision.run_pipeline env).error_message =
            some "Timeout reached before image generation could start")) ∧
    (∀ (env : MenuVision.PipelineEnv) (dishes : List MenuVision.DishRecord) (raw : String),
      (env.input = .bytesGiven ∨ env.input = .pathGiven (.ok ())) →
      env.ocr = .ok raw → env.llm = .ok dishes → dishes ≠ [] →
      env.timeoutBeforeGen = true →
      MenuVision.run_pipeline env =
        { job_id := env.job_id, status := .PARTIAL,
          dishes := dishes.map
            (fun d => { d with image_url := some MenuVision.PLACEHOLDER_IMAGE_URL }),
          error_message := some "Timeout reached before image generation could start" }) ∧
    (∀ henv : Backend.HandlerEnv, ∀ r ∈ Backend.handler henv,
      (r.error_message).isSome = true ↔ r.status = .FAILED) := by
  refine ⟨?_, ?_, ?_⟩
  · intro env
    obtain ⟨ocr, llm, input, tb, gen, ta, job⟩ := env
    cases input with
    | nothingGiven =>
      refine ⟨fun _ => rfl, ?_, ?_⟩ <;> intro h <;> simp [MenuVision.run_pipeline] at h
    | pathGiven rd =>
      cases rd with
      | error e =>
        refine ⟨fun _ => rfl, ?_, ?_⟩ <;> intro h <;> simp [MenuVision.run_pipeline] at h
      | ok u =>
        cases u
        cases ocr with
        | error e =>
          refine ⟨fun _ => rfl, ?_, ?_⟩ <;> intro h <;> simp [MenuVision.run_pipeline] at h
        | ok raw =>
          cases llm with
          | error e =>
            refine ⟨fun _ => rfl, ?_, ?_⟩ <;> intro h <;> simp [MenuVision.run_pipeline] at h
          | ok ds =>
            cases ds with
            | nil =>
              refine ⟨?_, fun _ => rfl, ?_⟩ <;> intro h <;> simp [MenuVision.run_pipeline] at h
            | cons d rest =>
              cases tb with
              | true =>
                refine ⟨?_, ?_, fun _ => Or.inr rfl⟩ <;> intro h <;>
                  simp [MenuVision.run_pipeline] at h
              | false =>
                refine ⟨?_, fun _ => rfl, fun _ => Or.inl rfl⟩
                intro h
                simp only [MenuVision.run_pipeline] at h
                exact absurd h (partial_or_completed_ne_failed _)
    | bytesGiven =>
      cases ocr with
      | error e =>
        refine ⟨fun _ => rfl, ?_, ?_⟩ <;> intro h <;> simp [MenuVision.run_pipeline] at h
      | ok raw =>
        cases llm with
        | error e =>
          refine ⟨fun _ => rfl, ?_, ?_⟩ <;> intro h <;> simp [MenuVision.run_pipeline] at h
        | ok ds =>
          cases ds with
          | nil =>
            refine ⟨?_, fun _ => rfl, ?_⟩ <;> intro h <;> simp [MenuVision.run_pipeline] at h
          | cons d rest =>
            cases tb with
            | true =>
              refine ⟨?_, ?_, fun _ => Or.inr rfl⟩ <;> intro h <;>
                simp [MenuVision.run_pipeline] at h
            | false =>
              refine ⟨?_, fun _ => rfl, fun _ => Or.inl rfl⟩
              intro h
              simp only [MenuVision.run_pipeline] at h
              exact absurd h (partial_or_completed_ne_failed _)
  · intro env dishes raw hinput hocr hllm hne htb
    have hempty : dishes.isEmpty = false := by
      cases dishes with
      | nil => exact absurd rfl hne
      | cons d rest => rfl
    rcases hinput with h | h <;>
      simp [MenuVision.run_pipeline, h, hocr, hllm, hempty, htb]
  · intro henv r hr
    cases hex : Backend.extract_dishes henv with
    | error msg =>
      simp only [Backend.handler, hex] at hr
      rcases List.mem_singleton.mp hr with rfl
      simp
    | ok ds =>
      cases ds with
      | nil =>
        simp only [Backend.handler, hex, List.isEmpty_nil, if_true] at hr
        rcases List.mem_singleton.mp hr with rfl
        simp
      | cons d rest =>
        simp only [Backend.handler, hex, List.isEmpty_cons] at hr
        rw [if_neg (by simp)] at hr
        rcases List.mem_cons.mp hr with h | h
        · subst h
          simp
        · obtain ⟨hnone, hnf⟩ := imageLoop_error_none henv _ _ _ r h
          simp [hnone, hnf]

/-- Lemma: `assignImage` preserves the dish-list length. -/
theorem assignImage_length (ds : List Backend.DishRecord) :
    ∀ (i : Nat) (u : String), (Backend.assignImage ds i u).length = ds.length := by
  induction ds with
  | nil => intro i u; rfl
  | cons d rest ih =>
    intro i u
    cases i with
    | zero => rfl
    | succ n => simpa [Backend.assignImage] using ih n u

/-- Lemma: `assignImage` leaves other indices unchanged. -/
theorem assignImage_get_ne (ds : List Backend.DishRecord) :
    ∀ (i j : Nat) (u : String), j ≠ i →
      (Backend.assignImage ds i u).get? j = ds.get? j := by
  induction ds with
  | nil => intro i j u _; rfl
  | cons d rest ih =>
    intro i j u hne
    cases i with
    | zero =>
      cases j with
      | zero => exact absurd rfl hne
      | succ m => rfl
    | succ n =>
      cases j with
      | zero => rfl
      | succ m =>
        simpa [Backend.assignImage] using ih n m u (fun h => hne (by rw [h]))

/-- Lemma: `assignImage` sets exactly the image URL at the assigned index. -/
theorem assignImage_get_eq (ds : List Backend.DishRecord) :
    ∀ (i : Nat) (u : String), i < ds.length →
      ∃ d, ds.get? i = some d ∧
        (Backend.assignImage ds i u).get? i = some { d with image_url := some u } := by
  induction ds with
  | nil => intro i u h; cases h
  | cons d rest ih =>
    intro i u h
    cases i with
    | zero => exact ⟨d, rfl, rfl⟩
    | succ n =>
      have := ih n u (by simpa using Nat.lt_of_succ_lt_succ h)
      simpa [Backend.assignImage] using this

/-- One-step unfolding of the fan-in loop. -/
theorem imageLoop_cons (env : Backend.HandlerEnv) (total : Nat) (st : Backend.LoopState)
    (idx : Nat) (rest : List Nat) :
    Backend.imageLoop env total st (idx :: rest) =
      ((Backend.imageLoop env total
          ⟨Backend.assignImage st.dishes idx
              (if env.genOutcome idx then env.urlFor idx else Backend.PLACEHOLDER_IMAGE_URL),
            st.any_failed || !env.genOutcome idx, st.completed_count + 1⟩ rest).1,
        { job_id := env.job_id,
          status := Backend.incStatus (st.completed_count + 1) total
            (st.any_failed || !env.genOutcome idx),
          dishes := Backend.assignImage st.dishes idx
            (if env.genOutcome idx then env.urlFor idx else Backend.PLACEHOLDER_IMAGE_URL) } ::
          (Backend.imageLoop env total
            ⟨Backend.assignImage st.dishes idx
                (if env.genOutcome idx then env.urlFor idx else Backend.PLACEHOLDER_IMAGE_URL),
              st.any_failed || !env.genOutcome idx, st.completed_count + 1⟩ rest).2) :=
  rfl

/-- The fan-in loop's final counter, failure flag, and dish-list length. -/
theorem imageLoop_state (env : Backend.HandlerEnv) (total : Nat) :
    ∀ (order : List Nat) (st : Backend.LoopState),
      (Backend.imageLoop env total st order).1.completed_count =
          st.completed_count + order.length ∧
      (Backend.imageLoop env total st order).1.any_failed =
          (st.any_failed || order.any (fun i => !env.genOutcome i)) ∧
      (Backend.imageLoop env total st order).1.dishes.length = st.dishes.length := by
  intro order
  induction order with
  | nil => intro st; exact ⟨rfl, by simp [Backend.imageLoop], rfl⟩
  | cons idx rest ih =>
    intro st
    obtain ⟨ih1, ih2, ih3⟩ := ih
      ⟨Backend.assignImage st.dishes idx
          (if env.genOutcome idx then env.urlFor idx else Backend.PLACEHOLDER_IMAGE_URL),
        st.any_failed || !env.genOutcome idx, st.completed_count + 1⟩
    rw [imageLoop_cons]
    dsimp only
    refine ⟨?_, ?_, ?_⟩
    · rw [ih1]
      simp only [List.length_cons]
      omega
    · rw [ih2]
      simp [Bool.or_assoc, List.any_cons]
    · rw [ih3]
      dsimp only
      rw [assignImage_length]

/-- Indices never completed keep their dish untouched through the loop. -/
theorem imageLoop_get_notmem (env : Backend.HandlerEnv) (total : Nat) :
    ∀ (order : List Nat) (st : Backend.LoopState) (j : Nat), j ∉ order →
      (Backend.imageLoop env total st order).1.dishes.get? j = st.dishes.get? j := by
  intro order
  induction order with
  | nil => intro st j _; rfl
  | cons idx rest ih =>
    intro st j hj
    have hne : j ≠ idx := fun h => hj (h ▸ List.mem_cons_self _ _)
    have hrest : j ∉ rest := fun h => hj (List.mem_cons_of_mem _ h)
    rw [imageLoop_cons]
    dsimp only
    rw [ih _ j hrest]
    dsimp only
    exact assignImage_get_ne st.dishes idx j _ hne

/-- Each completed index receives exactly its assigned image URL (the stored
URL on success, the placeholder on failure). -/
theorem imageLoop_get_mem (env : Backend.HandlerEnv) (total : Nat) :
    ∀ (order : List Nat) (st : Backend.LoopState) (j : Nat),
      order.Nodup → j ∈ order → j < st.dishes.length →
      ∃ d, st.dishes.get? j = some d ∧
        (Backend.imageLoop env total st order).1.dishes.get? j =
          some { d with
            image_url := some (if env.genOutcome j then env.urlFor j else Backend.PLACEHOLDER_IMAGE_URL) } := by
  intro order
  induction order with
  | nil => intro st j _ hj _; cases hj
  | cons idx rest ih =>
    intro st j hnd hj hlt
    rcases List.mem_cons.mp hj with rfl | hjr
    · have hnotr : j ∉ rest := (List.nodup_cons.mp hnd).1
      obtain ⟨d, hget, hset⟩ := assignImage_get_eq st.dishes j
        (if env.genOutcome j then env.urlFor j else Backend.PLACEHOLDER_IMAGE_URL) hlt
      refine ⟨d, hget, ?_⟩
      rw [imageLoop_cons]
      dsimp only
      rw [imageLoop_get_notmem env total rest _ j hnotr]
      exact hset
    · have hne : j ≠ idx := by
        intro h
        exact (List.nodup_cons.mp hnd).1 (h ▸ hjr)
      have hlt2 : j <
          (Backend.assignImage st.dishes idx
            (if env.genOutcome idx then env.urlFor idx
             else Backend.PLACEHOLDER_IMAGE_URL)).length := by
        rw [assignImage_length]
        exact hlt
      obtain ⟨d, hget, hfin⟩ := ih
        ⟨Backend.assignImage st.dishes idx
            (if env.genOutcome idx then env.urlFor idx else Backend.PLACEHOLDER_IMAGE_URL),
          st.any_failed || !env.genOutcome idx, st.completed_count + 1⟩
        j (List.nodup_cons.mp hnd).2 hjr hlt2
      refine ⟨d, ?_, ?_⟩
      · rw [← assignImage_get_ne st.dishes idx j
          (if env.genOutcome idx then env.urlFor idx else Backend.PLACEHOLDER_IMAGE_URL) hne]
        exact hget
      · rw [imageLoop_cons]
        dsimp only
        exact hfin

/-- The last publication of a nonempty fan-in loop reflects the final loop
state through `incStatus`. -/
theorem imageLoop_getLast (env : Backend.HandlerEnv) (total : Nat) :
    ∀ (order : List Nat) (st : Backend.LoopState), order ≠ [] →
      (Backend.imageLoop env total st order).2.getLast? =
        some { job_id := env.job_id,
               status := Backend.incStatus
                 (Backend.imageLoop env total st order).1.completed_count total
                 (Backend.imageLoop env total st order).1.any_failed,
               dishes := (Backend.imageLoop env total st order).1.dishes } := by
  intro order
  induction order with
  | nil => intro st h; exact absurd rfl h
  | cons idx rest ih =>
    intro st _
    rcases rest with _ | ⟨idx2, rest2⟩
    · rfl
    · have ihr := ih
        ⟨Backend.assignImage st.dishes idx
            (if env.genOutcome idx then env.urlFor idx else Backend.PLACEHOLDER_IMAGE_URL),
          st.any_failed || !env.genOutcome idx, st.completed_count + 1⟩
        (by simp)
      rw [imageLoop_cons]
      dsimp only
      cases hnx : (Backend.imageLoop env total
          ⟨Backend.assignImage st.dishes idx
              (if env.genOutcome idx then env.urlFor idx else Backend.PLACEHOLDER_IMAGE_URL),
            st.any_failed || !env.genOutcome idx, st.completed_count + 1⟩ (idx2 :: rest2)).2 with
      | nil => rw [hnx] at ihr; simp at ihr
      | cons p ps =>
        rw [hnx] at ihr
        rw [List.getLast?_cons_cons]
        exact ihr

/-- A final element is preserved by consing in front of a nonempty list. -/
theorem getLast?_cons_of_some {α : Type} (a : α) {l : List α} {x : α}
    (h : l.getLast? = some x) : (a :: l).getLast? = some x := by
  cases l with
  | nil => simp at h
  | cons b t =>
    rw [List.getLast?_cons_cons]
    exact h

/-- C1. For every image-outcome assignment and every completion order that
covers each of the N dish indices exactly once (N at least 1), the
handler's final published result has exactly N dishes, each carrying the
stored image URL of its successful generation or the placeholder sentinel on
failure, and its status is `COMPLETED` precisely when no dish failed and
`PARTIAL` otherwise. (The superseded OCR-only handler consumes the pool's
index-ascending output, the special case `order = range N`.) -/
theorem C1_final_publication (env : Backend.HandlerEnv) (dishes : List Backend.DishRecord)
    (n : Nat) (hex : Backend.extract_dishes env = .ok dishes) (hlen : dishes.length = n)
    (hn : 1 ≤ n) (hperm : env.order.Perm (List.range n)) :
    ∃ final : Backend.MenuResult,
      (Backend.handler env).getLast? = some final ∧
      final.dishes.length = n ∧
      (∀ j, j < n → ∃ d, dishes.get? j = some d ∧
        final.dishes.get? j = some { d with
          image_url := some (if env.genOutcome j then env.urlFor j else Backend.PLACEHOLDER_IMAGE_URL) }) ∧
      (final.status = .COMPLETED ↔ ∀ j, j < n → env.genOutcome j = true) ∧
      (final.status = .COMPLETED ∨ final.status = .PARTIAL) := by
  subst hlen
  have hempty : dishes.isEmpty = false := by
    cases dishes with
    | nil => simp at hn
    | cons d rest => rfl
  have hlenord : env.order.length = dishes.length := by
    simpa using hperm.length_eq
  have hordne : env.order ≠ [] := by
    intro h
    rw [h] at hlenord
    simp at hlenord
    omega
  have hnodup : env.order.Nodup := hperm.nodup_iff.mpr (List.nodup_range _)
  obtain ⟨hcount, hany, hdlen⟩ :=
    imageLoop_state env dishes.length env.order ⟨dishes, false, 0⟩
  have hlast := imageLoop_getLast env dishes.length env.order ⟨dishes, false, 0⟩ hordne
  have hhandler : Backend.handler env =
      { job_id := env.job_id, status := .PROCESSING, dishes := dishes } ::
        (Backend.imageLoop env dishes.length ⟨dishes, false, 0⟩ env.order).2 := by
    simp only [Backend.handler, hex, hempty, Bool.false_eq_true, if_false]
  have hstatus :
      Backend.incStatus
          (Backend.imageLoop env dishes.length ⟨dishes, false, 0⟩ env.order).1.completed_count
          dishes.length
          (Backend.imageLoop env dishes.length ⟨dishes, false, 0⟩ env.order).1.any_failed =
        (if env.order.any (fun i => !env.genOutcome i) then JobStatus.PARTIAL
         else JobStatus.COMPLETED) := by
    rw [hcount, hany]
    dsimp only
    rw [Nat.zero_add, hlenord, Bool.false_or]
    unfold Backend.incStatus
    rw [if_neg (lt_irrefl _)]
  have hcover : env.order.any (fun i => !env.genOutcome i) = false ↔
      ∀ j, j < dishes.length → env.genOutcome j = true := by
    constructor
    · intro hfalse j hj
      by_contra hgen
      have hbang : (!env.genOutcome j) = true := by
        cases hgj : env.genOutcome j with
        | true => exact absurd hgj hgen
        | false => rfl
      have hmem : j ∈ env.order := hperm.mem_iff.mpr (List.mem_range.mpr hj)
      have hx : env.order.any (fun i => !env.genOutcome i) = true :=
        List.any_eq_true.mpr ⟨j, hmem, hbang⟩
      rw [hfalse] at hx
      cases hx
    · intro hall
      cases hc : env.order.any (fun i => !env.genOutcome i) with
      | false => rfl
      | true =>
        obtain ⟨i, hmem, hi⟩ := List.any_eq_true.mp hc
        have hir : i < dishes.length := List.mem_range.mp (hperm.mem_iff.mp hmem)
        rw [hall i hir] at hi
        cases hi
  refine ⟨{ job_id := env.job_id,
            status := Backend.incStatus
              (Backend.imageLoop env dishes.length ⟨dishes, false, 0⟩ env.order).1.completed_count
              dishes.length
              (Backend.imageLoop env dishes.length ⟨dishes, false, 0⟩ env.order).1.any_failed,
            dishes := (Backend.imageLoop env dishes.length ⟨dishes, false, 0⟩ env.order).1.dishes },
    ?_, ?_, ?_, ?_, ?_⟩
  · rw [hhandler]
    exact getLast?_cons_of_some _ hlast
  · exact hdlen
  · intro j hj
    have hmem : j ∈ env.order := hperm.mem_iff.mpr (List.mem_range.mpr hj)
    obtain ⟨d, hget, hfin⟩ :=
      imageLoop_get_mem env dishes.length env.order ⟨dishes, false, 0⟩ j hnodup hmem hj
    exact ⟨d, hget, hfin⟩
  · dsimp only
    rw [hstatus]
    cases hc : env.order.any (fun i => !env.genOutcome i) with
    | false =>
      simp only [Bool.false_eq_true, if_false]
      exact ⟨fun _ => hcover.mp hc, fun _ => trivial⟩
    | true =>
      simp only [if_true]
      constructor
      · intro h
        cases h
      · intro hall
        have := hcover.mpr hall
        rw [hc] at this
        cases this
  · dsimp only
    rw [hstatus]
    cases env.order.any (fun i => !env.genOutcome i) with
    | false => exact Or.inl (by simp)
    | true => exact Or.inr (by simp)

/-- C1 witness: two dishes extracted via the Textract path, completion order
[1, 0], dish 0 succeeding and dish 1 failing: the final publication has both
dishes, the stored URL at index 0, the placeholder at index 1, and status
`PARTIAL`. -/
theorem C1_final_publication_witness :
    ∃ final : Backend.MenuResult,
      (Backend.handler c1Env).getLast? = some final ∧
      final.dishes.length = 2 ∧
      (∀ j, j < 2 → ∃ d, ([{ original_name := "A" }, { original_name := "B" }] :
          List Backend.DishRecord).get? j = some d ∧
        final.dishes.get? j = some { d with
          image_url := some (if c1Env.genOutcome j then c1Env.urlFor j else Backend.PLACEHOLDER_IMAGE_URL) }) ∧
      (final.status = .COMPLETED ↔ ∀ j, j < 2 → c1Env.genOutcome j = true) ∧
      (final.status = .COMPLETED ∨ final.status = .PARTIAL) :=
  C1_final_publication c1Env [{ original_name := "A" }, { original_name := "B" }] 2
    (by rfl) rfl (by norm_num) (by decide)

/-- C9 witness: the amended theorem applied at the concrete timeout
environment, yielding the full `PARTIAL` result with placeholder dishes and
the fixed timeout message. -/
theorem C9_error_message_discipline_witness :
    MenuVision.run_pipeline c9Env =
      { job_id := c9Env.job_id, status := .PARTIAL,
        dishes := ([{ original_name := "Dish" }] : List MenuVision.DishRecord).map
          (fun d => { d with image_url := some MenuVision.PLACEHOLDER_IMAGE_URL }),
        error_message := some "Timeout reached before image generation could start" } :=
  C9_error_message_discipline.2.1 c9Env [{ original_name := "Dish" }] "menu text"
    (Or.inl rfl) rfl rfl (by simp) rfl
